import Mathlib

/-!
Verification of the raven fetch-and-aggregate pipeline (src/main.go).

Strings are modelled as `List Char`.  Go `int` values are modelled as
unbounded `Int` (none of the verified claims hinges on 64-bit wraparound of
running sums); the one place where the 64-bit range is semantically visible,
`strconv.Atoi`'s range error, carries an explicit `2 ^ 63` bound.  Go
`float64` arithmetic (the average and the collected size samples) is
modelled as exact rational arithmetic: the claims under study are about
which quantities are combined, not about floating-point rounding.

External collaborators (the `net/http` client, `net/url.Parse`, the
`montanaflynn/stats` library) are not code of this repository: the network
is modelled as a function from a locator to an abstract fetch outcome, URL
parsing as an arbitrary success predicate the theorems quantify over, and
the stats routines by their input-contract behaviour (failure exactly on
empty input), with numeric results computed over rationals.
-/

namespace Raven

/-! ## Go string helpers (`strings.Trim*`, `strings.HasPrefix/HasSuffix`) -/

/-- Strip leading characters belonging to `cut` (Go `strings.TrimLeft`). -/
def trimLeftIn (cut : List Char) : List Char → List Char
  | [] => []
  | c :: rest => if c ∈ cut then trimLeftIn cut rest else c :: rest

/-- Strip trailing characters belonging to `cut` (Go `strings.TrimRight`). -/
def trimRightIn (cut : List Char) (s : List Char) : List Char :=
  (trimLeftIn cut s.reverse).reverse

/-- Strip characters of `cut` from both ends (Go `strings.Trim`). -/
def trimIn (cut : List Char) (s : List Char) : List Char :=
  trimLeftIn cut (trimRightIn cut s)

/-- The characters recognised by Go `unicode.IsSpace`. -/
def goSpaceChars : List Char :=
  [' ', '\t', '\n', Char.ofNat 0x0B, Char.ofNat 0x0C, '\r',
   Char.ofNat 0x85, Char.ofNat 0xA0, Char.ofNat 0x1680,
   Char.ofNat 0x2000, Char.ofNat 0x2001, Char.ofNat 0x2002, Char.ofNat 0x2003,
   Char.ofNat 0x2004, Char.ofNat 0x2005, Char.ofNat 0x2006, Char.ofNat 0x2007,
   Char.ofNat 0x2008, Char.ofNat 0x2009, Char.ofNat 0x200A,
   Char.ofNat 0x2028, Char.ofNat 0x2029, Char.ofNat 0x202F,
   Char.ofNat 0x205F, Char.ofNat 0x3000]

/-- Go `strings.TrimSpace`. -/
def trimSpace (s : List Char) : List Char :=
  trimIn goSpaceChars s

/-! ## The locator producer (`iter`, src/main.go lines 273-301) -/

/-- The cutset of `strings.Trim(s, "{\x22 \n}")` at src/main.go line 293:
brace, double quote, space, newline, closing brace. -/
def scrub : List Char := ['{', Char.ofNat 0x22, ' ', '\n', '}']

/-- The envelope check at src/main.go line 287: the whitespace-trimmed line
must start with an opening brace and end with a closing brace. -/
def envelopeOk (s : List Char) : Bool :=
  List.isPrefixOf ['{'] (trimSpace s) && List.isSuffixOf ['}'] (trimSpace s)

/-- The unwrapping applied to an accepted line (src/main.go line 293). -/
def cleanse (s : List Char) : List Char :=
  trimIn scrub s

/-- Split the input stream into complete newline-terminated lines, each kept
with its terminator, exactly as the loop of repeated
`bufio.ReadString(0x0A)` calls sees them: a read that hits end of input
before a newline returns a non-nil error, and `iter` breaks, so a trailing
segment with no newline is dropped. -/
def linesAux (acc : List Char) : List Char → List (List Char)
  | [] => []
  | c :: rest =>
      if c = '\n' then (acc ++ [c]) :: linesAux [] rest
      else linesAux (acc ++ [c]) rest

/-- All complete lines of the input stream. -/
def goLines (input : List Char) : List (List Char) :=
  linesAux [] input

/-- The producer loop body of `iter` over the stream of complete lines:
`start` counts accepted lines; the loop runs while `maxL < 0 ∨ start < maxL`;
lines failing the envelope check are skipped without incrementing `start`. -/
def iterLines (maxL : Int) : Int → List (List Char) → List (List Char)
  | _, [] => []
  | start, s :: rest =>
      if maxL < 0 ∨ start < maxL then
        if envelopeOk s then cleanse s :: iterLines maxL (start + 1) rest
        else iterLines maxL start rest
      else []

/-- The locator producer `iter` (src/main.go lines 273-301): the sequence of
unwrapped locator strings emitted on the channel, in order. -/
def iter (input : List Char) (maxL : Int) : List (List Char) :=
  iterLines maxL 0 (goLines input)

/-- The accepted (envelope-valid) lines of the whole stream, unwrapped,
ignoring any item limit. -/
def acceptedLines (input : List Char) : List (List Char) :=
  ((goLines input).filter envelopeOk).map cleanse

/-- The strip set named by the specification for an accepted line: brace,
double quote, space and closing brace — without the newline that the code's
cutset at line 293 additionally contains. -/
def scrubNoNewline : List Char := ['{', Char.ofNat 0x22, ' ', '}']

/-! ## Lemmas about trimming and the producer -/

lemma mem_trimLeftIn {cut : List Char} {x : Char} :
    ∀ {s : List Char}, x ∈ trimLeftIn cut s → x ∈ s := by
  intro s
  induction s with
  | nil => simp [trimLeftIn]
  | cons c rest ih =>
      simp only [trimLeftIn]
      split
      · intro h; exact List.mem_cons_of_mem _ (ih h)
      · intro h; exact h

lemma trimLeftIn_congr {cut cut' : List Char} :
    ∀ {s : List Char}, (∀ c ∈ s, c ∈ cut ↔ c ∈ cut') →
      trimLeftIn cut s = trimLeftIn cut' s := by
  intro s
  induction s with
  | nil => intro _; rfl
  | cons c rest ih =>
      intro h
      simp only [trimLeftIn]
      by_cases hc : c ∈ cut
      · rw [if_pos hc, if_pos ((h c (List.mem_cons_self c rest)).mp hc),
          ih (fun d hd => h d (List.mem_cons_of_mem _ hd))]
      · rw [if_neg hc, if_neg (fun hc' => hc ((h c (List.mem_cons_self c rest)).mpr hc'))]

lemma trimIn_congr {cut cut' : List Char} {s : List Char}
    (h : ∀ c ∈ s, c ∈ cut ↔ c ∈ cut') : trimIn cut s = trimIn cut' s := by
  have hrev : ∀ c ∈ s.reverse, c ∈ cut ↔ c ∈ cut' :=
    fun c hc => h c (List.mem_reverse.mp hc)
  unfold trimIn trimRightIn
  rw [trimLeftIn_congr hrev]
  refine trimLeftIn_congr (fun c hc => ?_)
  exact h c (List.mem_reverse.mp (mem_trimLeftIn (List.mem_reverse.mp hc)))

lemma trimRightIn_scrub_newline {l : List Char} :
    trimRightIn scrub (l ++ ['\n']) = trimRightIn scrub l := by
  unfold trimRightIn
  rw [List.reverse_append]
  have h2 : (['\n'] : List Char).reverse ++ l.reverse = '\n' :: l.reverse := by simp
  rw [h2]
  simp only [trimLeftIn]
  rw [if_pos (by decide : '\n' ∈ scrub)]

lemma scrub_iff_of_ne {c : Char} (h : c ≠ '\n') :
    c ∈ scrub ↔ c ∈ scrubNoNewline := by
  simp only [scrub, scrubNoNewline, List.mem_cons, List.not_mem_nil, or_false]
  constructor
  · rintro (h1 | h1 | h1 | h1 | h1)
    · exact Or.inl h1
    · exact Or.inr (Or.inl h1)
    · exact Or.inr (Or.inr (Or.inl h1))
    · exact absurd h1 h
    · exact Or.inr (Or.inr (Or.inr h1))
  · rintro (h1 | h1 | h1 | h1)
    · exact Or.inl h1
    · exact Or.inr (Or.inl h1)
    · exact Or.inr (Or.inr (Or.inl h1))
    · exact Or.inr (Or.inr (Or.inr (Or.inr h1)))

lemma cleanse_newline_terminated {l : List Char} (h : '\n' ∉ l) :
    cleanse (l ++ ['\n']) = trimIn scrubNoNewline l := by
  have h1 : trimIn scrub (l ++ ['\n']) = trimIn scrub l := by
    unfold trimIn
    rw [trimRightIn_scrub_newline]
  unfold cleanse
  rw [h1]
  exact trimIn_congr (fun c hc => scrub_iff_of_ne (fun he => h (he ▸ hc)))

lemma linesAux_shape : ∀ {input : List Char} {acc s : List Char},
    s ∈ linesAux acc input → '\n' ∉ acc → ∃ l, s = l ++ ['\n'] ∧ '\n' ∉ l := by
  intro input
  induction input with
  | nil => intro acc s h _; simp [linesAux] at h
  | cons c rest ih =>
      intro acc s h hacc
      simp only [linesAux] at h
      by_cases hc : c = '\n'
      · rw [if_pos hc] at h
        rcases List.mem_cons.mp h with h1 | h1
        · exact ⟨acc, by rw [h1, hc], hacc⟩
        · exact ih h1 (List.not_mem_nil _)
      · rw [if_neg hc] at h
        refine ih h ?_
        simp only [List.mem_append, List.mem_singleton]
        rintro (h1 | h1)
        · exact hacc h1
        · exact hc h1.symm

lemma iterLines_neg {maxL : Int} (h : maxL < 0) :
    ∀ (lines : List (List Char)) (start : Int),
      iterLines maxL start lines = (lines.filter envelopeOk).map cleanse := by
  intro lines
  induction lines with
  | nil => intro start; rfl
  | cons s rest ih =>
      intro start
      simp only [iterLines, List.filter_cons]
      rw [if_pos (Or.inl h)]
      by_cases he : envelopeOk s = true
      · simp [he, ih]
      · simp [he, ih]

lemma iterLines_nonneg {maxL : Int} (h : 0 ≤ maxL) :
    ∀ (lines : List (List Char)) (start : Int),
      iterLines maxL start lines =
        ((lines.filter envelopeOk).map cleanse).take (maxL - start).toNat := by
  intro lines
  induction lines with
  | nil => intro start; simp [iterLines]
  | cons s rest ih =>
      intro start
      simp only [iterLines, List.filter_cons]
      by_cases hs : start < maxL
      · rw [if_pos (Or.inr hs)]
        by_cases he : envelopeOk s = true
        · have ht : (maxL - start).toNat = (maxL - (start + 1)).toNat + 1 := by omega
          simp [he, ih, ht]
        · simp [he, ih]
      · have hcond : ¬(maxL < 0 ∨ start < maxL) := by omega
        rw [if_neg hcond]
        have ht : (maxL - start).toNat = 0 := by omega
        simp [ht]

lemma linesAux_of_no_newline : ∀ {tail : List Char}, '\n' ∉ tail →
    ∀ acc, linesAux acc tail = [] := by
  intro tail
  induction tail with
  | nil => intro _ acc; rfl
  | cons c rest ih =>
      intro h acc
      have hc : ¬(c = '\n') := fun e => h (by rw [e]; exact List.mem_cons_self _ _)
      simp only [linesAux]
      rw [if_neg hc]
      exact ih (fun hr => h (List.mem_cons_of_mem _ hr)) (acc ++ [c])

lemma linesAux_append {tail : List Char} (h : '\n' ∉ tail) :
    ∀ (front acc : List Char),
      linesAux acc (front ++ tail) = linesAux acc front := by
  intro front
  induction front with
  | nil => intro acc; simp [linesAux, linesAux_of_no_newline h]
  | cons c rest ih =>
      intro acc
      simp only [List.cons_append, linesAux, List.append_eq]
      by_cases hc : c = '\n'
      · rw [if_pos hc, if_pos hc, ih]
      · rw [if_neg hc, if_neg hc, ih]

/-! ## Claims about the producer -/

/-- Claim C5: lines failing the envelope check are skipped without counting
toward the item limit; the producer emits accepted items until the counter
reaches max-lines (when non-negative) or the source is exhausted; a negative
max-lines never bounds the count.  Formally: with a negative limit `iter`
emits every accepted line, and with a non-negative limit it emits exactly
the first `maxL` accepted lines. -/
theorem c5_producer_limit (input : List Char) (maxL : Int) :
    (maxL < 0 → iter input maxL = acceptedLines input) ∧
    (0 ≤ maxL → iter input maxL = (acceptedLines input).take maxL.toNat) := by
  constructor
  · intro h
    unfold iter acceptedLines
    rw [iterLines_neg h]
  · intro h
    unfold iter acceptedLines
    rw [iterLines_nonneg h]
    simp

/-- Witness for C5 at a concrete input: a malformed line is skipped without
consuming the limit of 1, so the single accepted item is still emitted. -/
theorem c5_producer_limit_witness :
    (0 : Int) ≤ 1 ∧
      iter ['x', '\n', '{', 'a', '}', '\n', '{', 'b', '}', '\n'] 1 =
        (acceptedLines ['x', '\n', '{', 'a', '}', '\n', '{', 'b', '}', '\n']).take
          (1 : Int).toNat :=
  ⟨by decide,
   (c5_producer_limit ['x', '\n', '{', 'a', '}', '\n', '{', 'b', '}', '\n'] 1).2 (by decide)⟩

/-- Claim C6: every line the producer examines is a newline-terminated
segment `l ++ [newline]` whose body `l` contains no newline, and for every
line passing the envelope check the emitted locator text equals the line
body with exactly the characters brace, double quote, space, and closing
brace stripped from both ends — the newline in the code's cutset only ever
removes the line terminator itself. -/
theorem c6_cleanse_strips_exactly (input s : List Char) (hs : s ∈ goLines input) :
    ∃ l, s = l ++ ['\n'] ∧ '\n' ∉ l ∧
      (envelopeOk s = true → cleanse s = trimIn scrubNoNewline l) := by
  obtain ⟨l, rfl, hl⟩ := linesAux_shape hs (List.not_mem_nil _)
  exact ⟨l, rfl, hl, fun _ => cleanse_newline_terminated hl⟩

/-- Witness for C6 at the concrete line with body brace-quote-a-quote-brace. -/
theorem c6_cleanse_strips_exactly_witness :
    (['{', Char.ofNat 0x22, 'a', Char.ofNat 0x22, '}', '\n'] ∈
        goLines ['{', Char.ofNat 0x22, 'a', Char.ofNat 0x22, '}', '\n']) ∧
      ∃ l, ['{', Char.ofNat 0x22, 'a', Char.ofNat 0x22, '}', '\n'] = l ++ ['\n'] ∧
        '\n' ∉ l ∧
        (envelopeOk ['{', Char.ofNat 0x22, 'a', Char.ofNat 0x22, '}', '\n'] = true →
          cleanse ['{', Char.ofNat 0x22, 'a', Char.ofNat 0x22, '}', '\n'] =
            trimIn scrubNoNewline l) :=
  ⟨by decide,
   c6_cleanse_strips_exactly ['{', Char.ofNat 0x22, 'a', Char.ofNat 0x22, '}', '\n']
     ['{', Char.ofNat 0x22, 'a', Char.ofNat 0x22, '}', '\n'] (by decide)⟩

/-- Claim C10: a final input segment not terminated by a newline is never
emitted by the producer — even when it is a valid envelope — because the
read that returns data together with end-of-input makes `iter` break before
the line is examined.  Appending any newline-free tail to the input leaves
the producer's output unchanged. -/
theorem c10_unterminated_final_line_dropped (front tail : List Char) (maxL : Int)
    (h : '\n' ∉ tail) : iter (front ++ tail) maxL = iter front maxL := by
  unfold iter goLines
  rw [linesAux_append h]

/-- Witness for C10: a trailing valid-envelope line with no newline does not
change the produced sequence. -/
theorem c10_unterminated_final_line_dropped_witness :
    '\n' ∉ ['{', 'b', '}'] ∧
      iter (['{', 'a', '}', '\n'] ++ ['{', 'b', '}']) (-1) =
        iter ['{', 'a', '}', '\n'] (-1) :=
  ⟨by decide,
   c10_unterminated_final_line_dropped ['{', 'a', '}', '\n'] ['{', 'b', '}'] (-1) (by decide)⟩

/-! ## The deduplicating dispatch loop (src/main.go lines 89-112)

`net/url.Parse` is an external library; its deterministic success predicate
is abstracted as the parameter `parseOk`, over which every theorem
quantifies. -/

/-- The main dispatch loop: for each produced line, skip it when already in
the `duplicates` set; otherwise attempt URL parsing — on failure skip
without marking as seen, on success mark as seen and dispatch a fetch.  The
returned list is the sequence of dispatched locator lines, in order. -/
def dispatchLoop (parseOk : List Char → Bool) :
    List (List Char) → List (List Char) → List (List Char)
  | _, [] => []
  | seen, line :: rest =>
      if line ∈ seen then dispatchLoop parseOk seen rest
      else if parseOk line then line :: dispatchLoop parseOk (line :: seen) rest
      else dispatchLoop parseOk seen rest

/-- The locators dispatched by a whole run. -/
def dispatched (input : List Char) (maxL : Int) (parseOk : List Char → Bool) :
    List (List Char) :=
  dispatchLoop parseOk [] (iter input maxL)

lemma dispatchLoop_count (parseOk : List Char → Bool) (l : List Char) :
    ∀ (lines seen : List (List Char)),
      (dispatchLoop parseOk seen lines).count l =
        if l ∈ seen then 0 else if l ∈ lines ∧ parseOk l = true then 1 else 0 := by
  intro lines
  induction lines with
  | nil => intro seen; simp [dispatchLoop]
  | cons line rest ih =>
      intro seen
      simp only [dispatchLoop]
      by_cases hseen : line ∈ seen
      · rw [if_pos hseen, ih]
        by_cases hl : l ∈ seen
        · simp [hl]
        · have hne : l ≠ line := fun e => hl (e ▸ hseen)
          simp [hl, List.mem_cons, hne]
      · rw [if_neg hseen]
        by_cases hp : parseOk line = true
        · rw [if_pos hp]
          by_cases he : l = line
          · subst he
            rw [List.count_cons_self, ih]
            simp [hseen, hp]
          · rw [List.count_cons_of_ne he, ih]
            by_cases hl : l ∈ seen <;> simp [List.mem_cons, he, hl]
        · rw [if_neg hp, ih]
          by_cases hl : l ∈ seen
          · simp [hl]
          · by_cases he : l = line
            · subst he
              simp [hl, hp]
            · simp [hl, List.mem_cons, he]

/-- Claim C3: a raw locator line (after envelope unwrapping) appearing more
than once among the accepted lines and parsing as a URL is dispatched
exactly once; every later occurrence is skipped by the dedup set. -/
theorem c3_duplicate_dispatched_once (input : List Char) (maxL : Int)
    (parseOk : List Char → Bool) (l : List Char)
    (hp : parseOk l = true) (hk : 1 < (iter input maxL).count l) :
    (dispatched input maxL parseOk).count l = 1 := by
  unfold dispatched
  rw [dispatchLoop_count]
  have hmem : l ∈ iter input maxL := List.count_pos_iff.mp (by omega)
  simp [hmem, hp]

/-- Witness for C3: the same locator accepted twice is fetched once. -/
theorem c3_duplicate_dispatched_once_witness :
    (fun _ : List Char => true) ['a'] = true ∧
      1 < (iter ['{', 'a', '}', '\n', '{', 'a', '}', '\n'] (-1)).count ['a'] ∧
      (dispatched ['{', 'a', '}', '\n', '{', 'a', '}', '\n'] (-1)
        (fun _ => true)).count ['a'] = 1 :=
  ⟨by decide, by decide,
   c3_duplicate_dispatched_once ['{', 'a', '}', '\n', '{', 'a', '}', '\n'] (-1)
     (fun _ => true) ['a'] (by decide) (by decide)⟩

/-! ## Fetch classification (`resultProcessor.fetch`, src/main.go lines 207-262) -/

/-- The error value attached to a failed fetch result. -/
inductive GoError where
  | transport (msg : List Char)
  | invalidStatus (code : Int)
  | noContentLength (code : Int) (url : List Char)
  | atoiFailure (input : List Char)
deriving DecidableEq

/-- One fetch's result record (`ravenResult`, src/main.go lines 264-271).
Field defaults mirror Go's zero values for omitted struct fields. -/
structure RavenResult where
  url : List Char
  completed : Bool := false
  status : Int := 0
  exception : Option GoError := none
  size : Int := 0
  ambiguous : Bool := false
deriving DecidableEq

/-- What the external HTTP client produced for one request: either a
transport-level failure of `client.Get`, or a response with a status code
and the raw Content-Length header value (`Header.Get` yields the empty
string when the header is absent). -/
inductive FetchOutcome where
  | transportError (msg : List Char)
  | response (status : Int) (contentLength : List Char)
deriving DecidableEq

/-- Go `strconv.Atoi` (`ParseInt` base 10, bit size 64): an optional sign
followed by at least one decimal digit, with the value required to fit a
signed 64-bit integer; `none` models a non-nil error. -/
def digitsVal (cs : List Char) : Option Nat :=
  cs.foldl
    (fun acc c =>
      acc.bind fun v =>
        if '0' ≤ c ∧ c ≤ '9' then some (v * 10 + (c.toNat - 48)) else none)
    (some 0)

/-- The signed, range-checked wrapper completing the `strconv.Atoi` model. -/
def goAtoi (s : List Char) : Option Int :=
  match s with
  | '-' :: rest =>
      if rest = [] then none
      else (digitsVal rest).bind fun v =>
        if (v : Int) ≤ 2 ^ 63 then some (-(v : Int)) else none
  | '+' :: rest =>
      if rest = [] then none
      else (digitsVal rest).bind fun v =>
        if (v : Int) < 2 ^ 63 then some (v : Int) else none
  | _ =>
      if s = [] then none
      else (digitsVal s).bind fun v =>
        if (v : Int) < 2 ^ 63 then some (v : Int) else none

/-- The classification body of `resultProcessor.fetch` (src/main.go lines
207-262), as a function of the locator and the outcome the HTTP client
returned.  Each branch mirrors one early return of the Go function. -/
def fetch (resource : List Char) (outcome : FetchOutcome) : RavenResult :=
  match outcome with
  | .transportError msg =>
      { url := resource, completed := true, exception := some (.transport msg) }
  | .response status cl =>
      if 399 < status then
        { url := resource, completed := true,
          exception := some (.invalidStatus status) }
      else if cl.length ≤ 0 then
        { url := resource, completed := true,
          exception := some (.noContentLength status resource), ambiguous := true }
      else
        match goAtoi cl with
        | none =>
            { url := resource, completed := true,
              exception := some (.atoiFailure cl), ambiguous := true }
        | some n =>
            { url := resource, completed := true, size := n, status := status }

/-! ## The metrics aggregator (`flockMetrics`, src/main.go lines 123-156) -/

/-- Run metrics (`flockMetrics`).  `sizes` holds the successful sizes as the
(exactly modelled) rationals the code stores as float64 samples;
`ambiguous` appends the raw exception of every result flagged ambiguous.
Defaults are Go zero values, matching the `rollup` literal at line 72. -/
structure FlockMetrics where
  failed : Int := 0
  average : ℚ := 0
  sum : Int := 0
  max : Int := 0
  min : Int := 0
  count : Int := 0
  sizes : List ℚ := []
  ambiguous : List (Option GoError) := []
deriving DecidableEq

/-- The aggregator fold step (`flockMetrics.add`, src/main.go lines
134-156): count always increments; an ambiguous result appends its
exception; any result carrying an error increments `failed` and stops;
otherwise `max`, `min`, `sizes` and `sum` are updated. -/
def FlockMetrics.add (m : FlockMetrics) (r : RavenResult) : FlockMetrics :=
  let m1 : FlockMetrics := { m with count := m.count + 1 }
  let m2 : FlockMetrics :=
    if r.ambiguous then { m1 with ambiguous := m1.ambiguous ++ [r.exception] } else m1
  match r.exception with
  | some _ => { m2 with failed := m2.failed + 1 }
  | none =>
      let m3 : FlockMetrics := if m2.max < r.size then { m2 with max := r.size } else m2
      let m4 : FlockMetrics := if m3.min > r.size then { m3 with min := r.size } else m3
      { m4 with sizes := m4.sizes ++ [(r.size : ℚ)], sum := m4.sum + r.size }

/-- The aggregator consuming a whole result stream, starting from the
zero-initialised `rollup`. -/
def foldResults (rs : List RavenResult) : FlockMetrics :=
  rs.foldl FlockMetrics.add {}

/-- The metrics after the final average assignment at src/main.go line 119:
`average = float64(sum) / float64(count)`, modelled exactly over ℚ. -/
def finalMetrics (rs : List RavenResult) : FlockMetrics :=
  let m := foldResults rs
  { m with average := (m.sum : ℚ) / (m.count : ℚ) }

/-- The sizes of the successful results of a stream, in order. -/
def successSizes (rs : List RavenResult) : List Int :=
  (rs.filter (fun r => r.exception.isNone)).map (fun r => r.size)

/-! ### Component lemmas about one `add` step -/

lemma add_count (m : FlockMetrics) (r : RavenResult) :
    (m.add r).count = m.count + 1 := by
  unfold FlockMetrics.add
  cases r.exception <;> by_cases ha : r.ambiguous <;>
    simp [ha] <;> split <;> split <;> rfl

lemma add_sum (m : FlockMetrics) (r : RavenResult) :
    (m.add r).sum = m.sum + (if r.exception = none then r.size else 0) := by
  unfold FlockMetrics.add
  cases r.exception <;> by_cases ha : r.ambiguous <;>
    simp [ha] <;> split <;> split <;> rfl

lemma add_sizes (m : FlockMetrics) (r : RavenResult) :
    (m.add r).sizes =
      m.sizes ++ (if r.exception = none then [(r.size : ℚ)] else []) := by
  unfold FlockMetrics.add
  cases r.exception <;> by_cases ha : r.ambiguous <;>
    simp [ha] <;> split <;> split <;> rfl

lemma add_min (m : FlockMetrics) (r : RavenResult) :
    (m.add r).min = if r.exception = none then min m.min r.size else m.min := by
  unfold FlockMetrics.add
  cases r.exception <;> by_cases ha : r.ambiguous <;>
    by_cases h3 : m.max < r.size <;> by_cases h4 : m.min > r.size <;>
      simp [ha, h3, h4] <;> omega

lemma add_max (m : FlockMetrics) (r : RavenResult) :
    (m.add r).max = if r.exception = none then max m.max r.size else m.max := by
  unfold FlockMetrics.add
  cases r.exception <;> by_cases ha : r.ambiguous <;>
    by_cases h3 : m.max < r.size <;> by_cases h4 : m.min > r.size <;>
      simp [ha, h3, h4] <;> omega

lemma add_failed (m : FlockMetrics) (r : RavenResult) :
    (m.add r).failed = m.failed + (if r.exception = none then 0 else 1) := by
  unfold FlockMetrics.add
  cases r.exception <;> by_cases ha : r.ambiguous <;>
    simp [ha] <;> split <;> split <;> rfl

/-! ### Fold lemmas over a whole result stream -/

lemma foldl_add_count (rs : List RavenResult) :
    ∀ m : FlockMetrics, (rs.foldl FlockMetrics.add m).count = m.count + rs.length := by
  induction rs with
  | nil => intro m; simp
  | cons r rest ih =>
      intro m
      simp only [List.foldl_cons, List.length_cons, ih, add_count]
      omega

lemma successSizes_cons (r : RavenResult) (rs : List RavenResult) :
    successSizes (r :: rs) =
      (if r.exception = none then [r.size] else []) ++ successSizes rs := by
  unfold successSizes
  cases he : r.exception <;> simp [List.filter_cons, he, Option.isNone]

lemma foldl_add_sum (rs : List RavenResult) :
    ∀ m : FlockMetrics,
      (rs.foldl FlockMetrics.add m).sum = m.sum + (successSizes rs).sum := by
  induction rs with
  | nil => intro m; simp [successSizes]
  | cons r rest ih =>
      intro m
      simp only [List.foldl_cons, ih, add_sum, successSizes_cons]
      cases he : r.exception <;> simp [he] <;> try omega

lemma foldl_add_sizes (rs : List RavenResult) :
    ∀ m : FlockMetrics,
      (rs.foldl FlockMetrics.add m).sizes =
        m.sizes ++ (successSizes rs).map (fun n => (n : ℚ)) := by
  induction rs with
  | nil => intro m; simp [successSizes]
  | cons r rest ih =>
      intro m
      simp only [List.foldl_cons, ih, add_sizes, successSizes_cons]
      cases he : r.exception <;> simp [he]

lemma foldl_add_min (rs : List RavenResult) :
    ∀ m : FlockMetrics,
      (rs.foldl FlockMetrics.add m).min = (successSizes rs).foldl min m.min := by
  induction rs with
  | nil => intro m; simp [successSizes]
  | cons r rest ih =>
      intro m
      simp only [List.foldl_cons, ih, add_min, successSizes_cons]
      cases he : r.exception <;> simp [he]

lemma foldl_add_max (rs : List RavenResult) :
    ∀ m : FlockMetrics,
      (rs.foldl FlockMetrics.add m).max = (successSizes rs).foldl max m.max := by
  induction rs with
  | nil => intro m; simp [successSizes]
  | cons r rest ih =>
      intro m
      simp only [List.foldl_cons, ih, add_max, successSizes_cons]
      cases he : r.exception <;> simp [he]

lemma foldResults_count (rs : List RavenResult) :
    (foldResults rs).count = rs.length := by
  unfold foldResults
  rw [foldl_add_count]
  simp

lemma foldResults_sum (rs : List RavenResult) :
    (foldResults rs).sum = (successSizes rs).sum := by
  unfold foldResults
  rw [foldl_add_sum]
  simp

lemma finalMetrics_count (rs : List RavenResult) :
    (finalMetrics rs).count = rs.length := by
  show (foldResults rs).count = _
  exact foldResults_count rs

/-! ## Claims about the aggregator and the reporter's average -/

/-- Claim C1: after the result stream is drained, the reported average
equals sum divided by count, where count is the total number of results
folded (failed and ambiguous included) and sum accumulates the sizes of the
successful results only.  The stream `rs` is arbitrary, so the statement
covers every arrival order of every run with at least one folded result. -/
theorem c1_average_sum_over_total_count (rs : List RavenResult) (h : rs ≠ []) :
    (finalMetrics rs).average =
      ((successSizes rs).sum : ℚ) / (rs.length : ℚ) := by
  show ((foldResults rs).sum : ℚ) / ((foldResults rs).count : ℚ) = _
  rw [foldResults_count, foldResults_sum]
  norm_cast

/-- Witness for C1: one successful result of size 4 and one failed result
give average 4 / 2 = 2. -/
theorem c1_average_sum_over_total_count_witness :
    ([{ url := ['a'], completed := true, size := 4, status := 200 },
      { url := ['b'], completed := true,
        exception := some (.invalidStatus 404) }] : List RavenResult) ≠ [] ∧
      (finalMetrics
        [{ url := ['a'], completed := true, size := 4, status := 200 },
         { url := ['b'], completed := true,
           exception := some (.invalidStatus 404) }]).average =
        ((successSizes
          [{ url := ['a'], completed := true, size := 4, status := 200 },
           { url := ['b'], completed := true,
             exception := some (.invalidStatus 404) }]).sum : ℚ) /
          (([{ url := ['a'], completed := true, size := 4, status := 200 },
             { url := ['b'], completed := true,
               exception := some (.invalidStatus 404) }] : List RavenResult).length : ℚ) :=
  ⟨by decide,
   c1_average_sum_over_total_count
     [{ url := ['a'], completed := true, size := 4, status := 200 },
      { url := ['b'], completed := true, exception := some (.invalidStatus 404) }]
     (by decide)⟩

lemma foldl_min_const {c : Int} : ∀ {l : List Int}, (∀ x ∈ l, c ≤ x) →
    l.foldl min c = c := by
  intro l
  induction l with
  | nil => intro _; rfl
  | cons a rest ih =>
      intro h
      have hca : min c a = c := min_eq_left (h a (List.mem_cons_self a rest))
      simp only [List.foldl_cons, hca]
      exact ih (fun x hx => h x (List.mem_cons_of_mem _ hx))

/-- Claim C9: `min` starts at 0 and is only lowered, `max` starts at 0 and
is only raised, so after any result stream the reported extrema are the
folds of `min`/`max` over the successful sizes with initial value 0; in
particular when every successful size is positive the reported `min` is 0,
not the smallest collected sample. -/
theorem c9_min_max_anchored_at_zero (rs : List RavenResult) :
    (foldResults rs).min = (successSizes rs).foldl min 0 ∧
      (foldResults rs).max = (successSizes rs).foldl max 0 ∧
      ((∀ x ∈ successSizes rs, 0 < x) → (foldResults rs).min = 0) := by
  have hmin : (foldResults rs).min = (successSizes rs).foldl min 0 := foldl_add_min rs {}
  have hmax : (foldResults rs).max = (successSizes rs).foldl max 0 := foldl_add_max rs {}
  refine ⟨hmin, hmax, fun h => ?_⟩
  rw [hmin]
  exact foldl_min_const (fun x hx => le_of_lt (h x hx))

/-- Witness for C9: two successful sizes 3 and 7, both positive, leave the
reported minimum at 0. -/
theorem c9_min_max_anchored_at_zero_witness :
    (∀ x ∈ successSizes
        [{ url := ['a'], completed := true, size := 3, status := 200 },
         { url := ['b'], completed := true, size := 7, status := 200 }], 0 < x) ∧
      (foldResults
        [{ url := ['a'], completed := true, size := 3, status := 200 },
         { url := ['b'], completed := true, size := 7, status := 200 }]).min = 0 :=
  ⟨by decide,
   (c9_min_max_anchored_at_zero
     [{ url := ['a'], completed := true, size := 3, status := 200 },
      { url := ['b'], completed := true, size := 7, status := 200 }]).2.2 (by decide)⟩

/-! ## Claim C2: content-length parsing -/

/-- Counterexample to claim C2 as stated: for a response with status 200
and declared content-length value minus-five — a value that is parseable
only as a negative integer, hence not as a non-negative integer — the code
produces a plain success result carrying size -5 (no error, not ambiguous),
where the claim demands an ambiguous error result.  `strconv.Atoi` accepts
signed values, and the success branch performs no sign check. -/
theorem c2_counterexample_negative_length :
    goAtoi ['-', '5'] = some (-5) ∧
      (fetch ['u'] (.response 200 ['-', '5'])).exception = none ∧
      (fetch ['u'] (.response 200 ['-', '5'])).ambiguous = false ∧
      (fetch ['u'] (.response 200 ['-', '5'])).size = -5 := by
  refine ⟨?_, ?_, ?_, ?_⟩ <;> decide

/-- Claim C2 as amended: for a response with status below 400 and a
non-empty declared content-length header, the result is an ambiguous error
exactly when `strconv.Atoi` fails on the header value (not a signed decimal
integer within the 64-bit range); whenever `Atoi` succeeds — including on
negative values — the result is a success carrying the parsed size. -/
theorem c2_length_parse_classification (u cl : List Char) (status : Int)
    (hs : status ≤ 399) (hcl : cl ≠ []) :
    (goAtoi cl = none →
      (fetch u (.response status cl)).exception = some (.atoiFailure cl) ∧
        (fetch u (.response status cl)).ambiguous = true) ∧
    (∀ n : Int, goAtoi cl = some n →
      (fetch u (.response status cl)).exception = none ∧
        (fetch u (.response status cl)).size = n ∧
        (fetch u (.response status cl)).ambiguous = false) := by
  have h1 : ¬(399 < status) := by omega
  have h2 : ¬(cl.length ≤ 0) := by
    cases cl with
    | nil => exact absurd rfl hcl
    | cons c rest => simp
  constructor
  · intro ha
    simp [fetch, h1, h2, ha]
  · intro n hn
    simp [fetch, h1, h2, hn]

/-- Witness for C2 (amended) at status 200 with the unparsable header value
consisting of the single letter x: the result is flagged ambiguous. -/
theorem c2_length_parse_classification_witness :
    (200 : Int) ≤ 399 ∧ (['x'] : List Char) ≠ [] ∧ goAtoi ['x'] = none ∧
      (fetch ['u'] (.response 200 ['x'])).exception = some (.atoiFailure ['x']) ∧
      (fetch ['u'] (.response 200 ['x'])).ambiguous = true :=
  ⟨by decide, by decide, by decide,
   ((c2_length_parse_classification ['u'] ['x'] 200 (by decide) (by decide)).1
     (by decide)).1,
   ((c2_length_parse_classification ['u'] ['x'] 200 (by decide) (by decide)).1
     (by decide)).2⟩

/-! ## The statistics reporter (`flockMetrics.String`, src/main.go lines
158-200)

`Quartile` and `Percentile` come from the external montanaflynn/stats
library.  What the claims depend on is their input contract: both fail with
an empty-input error exactly when the sample list is empty (for the percents
95 and 99 used here).  Their numeric results are computed over rationals;
the library's float64 rounding, and the zero stand-in for the NaN a
one-element quartile produces, are irrelevant to every claim below. -/

/-- Errors of the external stats library. -/
inductive StatsErr where
  | emptyInput
  | bounds
deriving DecidableEq

/-- Sorted copy of the samples (the library sorts before indexing). -/
def sortQ (xs : List ℚ) : List ℚ :=
  xs.insertionSort (· ≤ ·)

/-- Median of the external stats library: fails on empty input, else the
middle element (or the mean of the two middle elements) of the sorted copy. -/
def statsMedian (xs : List ℚ) : Except StatsErr ℚ :=
  if xs.length = 0 then .error .emptyInput
  else
    let c := sortQ xs
    if xs.length % 2 = 0 then
      .ok ((c.getD (xs.length / 2 - 1) 0 + c.getD (xs.length / 2) 0) / 2)
    else .ok (c.getD (xs.length / 2) 0)

/-- Quartiles of the external stats library: fails exactly on empty input;
otherwise medians of the lower half, the whole list, and the upper half
(median errors on degenerate halves are discarded, as the library does). -/
def statsQuartile (xs : List ℚ) : Except StatsErr (ℚ × ℚ × ℚ) :=
  if xs.length = 0 then .error .emptyInput
  else
    let il := xs.length
    let c1 := if il % 2 = 0 then il / 2 else (il - 1) / 2
    let c2 := if il % 2 = 0 then il / 2 else (il - 1) / 2 + 1
    let c := sortQ xs
    .ok ((statsMedian (c.take c1)).toOption.getD 0,
         (statsMedian c).toOption.getD 0,
         (statsMedian (c.drop c2)).toOption.getD 0)

/-- Percentile of the external stats library: fails on empty input; a
one-element list yields its element; out-of-range percents fail; otherwise
the sorted copy is indexed at percent/100 of the length. -/
def statsPercentile (xs : List ℚ) (percent : ℚ) : Except StatsErr ℚ :=
  match xs with
  | [] => .error .emptyInput
  | [x] => .ok x
  | _ :: _ :: _ =>
      if percent ≤ 0 ∨ 100 < percent then .error .bounds
      else
        let c := sortQ xs
        let index : ℚ := percent / 100 * xs.length
        if index.den = 1 then .ok (c.getD (index.num.toNat - 1) 0)
        else if 1 < index then
          .ok ((c.getD ((Rat.floor index).toNat - 1) 0 +
                c.getD (Rat.floor index).toNat 0) / 2)
        else .error .bounds

/-- The final summary the run prints once (`flockMetrics.String`): either
the invalid-metrics error message (when a stats call fails) or the full
summary carrying count, max, min, average, quartiles, p95, p99, failed,
the ambiguous count and the ambiguous listing. -/
inductive SummaryOut where
  | invalid (e : StatsErr)
  | summary (count maxv minv : Int) (avg : ℚ) (quartiles : ℚ × ℚ × ℚ)
      (p95 p99 : ℚ) (failed : Int) (ambiguousCount : Nat)
      (ambiguousListing : List (Option GoError))
deriving DecidableEq

/-- `flockMetrics.String` (src/main.go lines 158-200): quartiles first, then
the 99th and 95th percentiles, each error short-circuiting into the
invalid-metrics message; otherwise the composed summary. -/
def flockString (m : FlockMetrics) : SummaryOut :=
  match statsQuartile m.sizes with
  | .error e => .invalid e
  | .ok q =>
      match statsPercentile m.sizes 99 with
      | .error e => .invalid e
      | .ok p99 =>
          match statsPercentile m.sizes 95 with
          | .error e => .invalid e
          | .ok p95 =>
              .summary m.count m.max m.min m.average q p95 p99 m.failed
                m.ambiguous.length m.ambiguous

/-! ## The whole run (main, src/main.go lines 21-121)

The run is modelled after startup validation: the producer feeds the
dispatch loop, each dispatched locator is fetched exactly once (the network
is the function `net`), the aggregator folds every emitted result, the
average is assigned, and the summary is produced exactly once.  The model
folds results in dispatch order; run-level theorems that depend on arrival
order quantify over an arbitrary permutation instead. -/

/-- The multiset of results a run emits: one per dispatched locator. -/
def runResults (input : List Char) (maxL : Int) (parseOk : List Char → Bool)
    (net : List Char → FetchOutcome) : List RavenResult :=
  (dispatched input maxL parseOk).map (fun l => fetch l (net l))

/-- The single final output of a run. -/
def runOutput (input : List Char) (maxL : Int) (parseOk : List Char → Bool)
    (net : List Char → FetchOutcome) : SummaryOut :=
  flockString (finalMetrics (runResults input maxL parseOk net))

lemma statsQuartile_nil : statsQuartile [] = .error .emptyInput := by
  rfl

lemma statsQuartile_ok (xs : List ℚ) (h : xs ≠ []) :
    ∃ q, statsQuartile xs = .ok q := by
  unfold statsQuartile
  rw [if_neg (by simpa using h)]
  exact ⟨_, rfl⟩

lemma statsPercentile_ok (xs : List ℚ) (percent : ℚ) (h : xs ≠ [])
    (h0 : 0 < percent) (h100 : percent ≤ 100) (h1 : 1 < percent / 100 * 2) :
    ∃ v, statsPercentile xs percent = .ok v := by
  match xs with
  | [] => exact absurd rfl h
  | [x] => exact ⟨x, rfl⟩
  | a :: b :: rest =>
      unfold statsPercentile
      rw [if_neg (by push_neg; exact ⟨h0, h100⟩)]
      by_cases hden : (percent / 100 * ((a :: b :: rest).length : ℚ)).den = 1
      · rw [if_pos hden]
        exact ⟨_, rfl⟩
      · rw [if_neg hden]
        have hlen : (2 : ℚ) ≤ ((a :: b :: rest).length : ℚ) := by
          have h2 : 2 ≤ (a :: b :: rest).length := by
            simp only [List.length_cons]
            omega
          exact_mod_cast h2
        have hgt : 1 < percent / 100 * ((a :: b :: rest).length : ℚ) := by
          calc (1 : ℚ) < percent / 100 * 2 := h1
            _ ≤ percent / 100 * ((a :: b :: rest).length : ℚ) := by
                apply mul_le_mul_of_nonneg_left hlen
                positivity
        rw [if_pos hgt]
        exact ⟨_, rfl⟩

lemma finalMetrics_sizes (rs : List RavenResult) :
    (finalMetrics rs).sizes = (successSizes rs).map (fun n => (n : ℚ)) := by
  show (foldResults rs).sizes = _
  have h := foldl_add_sizes rs {}
  simpa using h

/-- Counterexample to claim C7 as stated: a concrete run whose only fetch
returns status 404 folds one error result, collects no size samples, and
prints the invalid-metrics error message — not the summary string carrying
count, max, min, average, quartiles, p95, p99, failed and ambiguous-count
that the claim promises for every completed run. -/
theorem c7_counterexample_empty_samples :
    runOutput ['{', 'a', '}', '\n'] (-1) (fun _ => true)
        (fun _ => .response 404 []) = .invalid .emptyInput ∧
      (runResults ['{', 'a', '}', '\n'] (-1) (fun _ => true)
        (fun _ => .response 404 [])).length = 1 := by
  constructor <;> decide

/-- Claim C7 as amended: every run that starts fetching completes and
produces its final output exactly once (the model's run function is total),
regardless of how many fetches fail; the output is the full summary —
count, max, min, average, quartiles, p95, p99, failed, ambiguous-count and
listing — whenever at least one size sample was collected, and the
invalid-metrics error message when every folded result was an error and the
sample list is empty. -/
theorem c7_run_always_produces_output (input : List Char) (maxL : Int)
    (parseOk : List Char → Bool) (net : List Char → FetchOutcome) :
    ((finalMetrics (runResults input maxL parseOk net)).sizes = [] →
      runOutput input maxL parseOk net = .invalid .emptyInput) ∧
    ((finalMetrics (runResults input maxL parseOk net)).sizes ≠ [] →
      ∃ q p95 p99,
        runOutput input maxL parseOk net =
          .summary (finalMetrics (runResults input maxL parseOk net)).count
            (finalMetrics (runResults input maxL parseOk net)).max
            (finalMetrics (runResults input maxL parseOk net)).min
            (finalMetrics (runResults input maxL parseOk net)).average
            q p95 p99
            (finalMetrics (runResults input maxL parseOk net)).failed
            (finalMetrics (runResults input maxL parseOk net)).ambiguous.length
            (finalMetrics (runResults input maxL parseOk net)).ambiguous) := by
  constructor
  · intro h
    unfold runOutput flockString
    rw [h, statsQuartile_nil]
  · intro h
    obtain ⟨q, hq⟩ := statsQuartile_ok _ h
    obtain ⟨v99, h99⟩ := statsPercentile_ok _ 99 h (by norm_num) (by norm_num)
      (by norm_num)
    obtain ⟨v95, h95⟩ := statsPercentile_ok _ 95 h (by norm_num) (by norm_num)
      (by norm_num)
    refine ⟨q, v95, v99, ?_⟩
    unfold runOutput flockString
    rw [hq, h99, h95]

/-- Witness for C7 (amended): a run with one successful fetch has a
non-empty sample list and yields the full summary. -/
theorem c7_run_always_produces_output_witness :
    (finalMetrics (runResults ['{', 'a', '}', '\n'] (-1) (fun _ => true)
        (fun _ => .response 200 ['7']))).sizes ≠ [] ∧
      ∃ q p95 p99,
        runOutput ['{', 'a', '}', '\n'] (-1) (fun _ => true)
            (fun _ => .response 200 ['7']) =
          .summary
            (finalMetrics (runResults ['{', 'a', '}', '\n'] (-1) (fun _ => true)
              (fun _ => .response 200 ['7']))).count
            (finalMetrics (runResults ['{', 'a', '}', '\n'] (-1) (fun _ => true)
              (fun _ => .response 200 ['7']))).max
            (finalMetrics (runResults ['{', 'a', '}', '\n'] (-1) (fun _ => true)
              (fun _ => .response 200 ['7']))).min
            (finalMetrics (runResults ['{', 'a', '}', '\n'] (-1) (fun _ => true)
              (fun _ => .response 200 ['7']))).average
            q p95 p99
            (finalMetrics (runResults ['{', 'a', '}', '\n'] (-1) (fun _ => true)
              (fun _ => .response 200 ['7']))).failed
            (finalMetrics (runResults ['{', 'a', '}', '\n'] (-1) (fun _ => true)
              (fun _ => .response 200 ['7']))).ambiguous.length
            (finalMetrics (runResults ['{', 'a', '}', '\n'] (-1) (fun _ => true)
              (fun _ => .response 200 ['7']))).ambiguous :=
  ⟨by decide,
   (c7_run_always_produces_output ['{', 'a', '}', '\n'] (-1) (fun _ => true)
     (fun _ => .response 200 ['7'])).2 (by decide)⟩

/-- Claim C4: for every run — under any arrival order of the results — the
final `count` equals the number of results folded, which equals the number
of dispatched locators: exactly the produced lines that passed envelope
validation, were not duplicates, and parsed as a URL, each dispatched
fetcher emitting exactly one result. -/
theorem c4_count_equals_folded_equals_dispatched (input : List Char) (maxL : Int)
    (parseOk : List Char → Bool) (net : List Char → FetchOutcome)
    (results : List RavenResult)
    (hperm : results.Perm (runResults input maxL parseOk net)) :
    (finalMetrics results).count = results.length ∧
      results.length = (runResults input maxL parseOk net).length ∧
      (runResults input maxL parseOk net).length =
        (dispatched input maxL parseOk).length := by
  refine ⟨finalMetrics_count results, hperm.length_eq, ?_⟩
  unfold runResults
  exact List.length_map _ _

/-- Witness for C4: a three-line input with one duplicate and one malformed
line dispatches two fetches and folds two results. -/
theorem c4_count_equals_folded_equals_dispatched_witness :
    (runResults ['{', 'a', '}', '\n', '{', 'a', '}', '\n', 'z', '\n', '{', 'b', '}', '\n']
        (-1) (fun _ => true) (fun _ => .response 404 [])).Perm
      (runResults ['{', 'a', '}', '\n', '{', 'a', '}', '\n', 'z', '\n', '{', 'b', '}', '\n']
        (-1) (fun _ => true) (fun _ => .response 404 [])) ∧
      (finalMetrics (runResults
        ['{', 'a', '}', '\n', '{', 'a', '}', '\n', 'z', '\n', '{', 'b', '}', '\n']
        (-1) (fun _ => true) (fun _ => .response 404 []))).count = (2 : Int) :=
  ⟨List.Perm.refl _,
   by
    have h := (c4_count_equals_folded_equals_dispatched
      ['{', 'a', '}', '\n', '{', 'a', '}', '\n', 'z', '\n', '{', 'b', '}', '\n']
      (-1) (fun _ => true) (fun _ => .response 404 [])
      (runResults ['{', 'a', '}', '\n', '{', 'a', '}', '\n', 'z', '\n', '{', 'b', '}', '\n']
        (-1) (fun _ => true) (fun _ => .response 404 []))
      (List.Perm.refl _)).1
    rw [h]
    decide⟩

/-! ## The dispatch pool (src/main.go lines 60-64 and 207-210)

The `fetchers` channel is created with capacity equal to the configured
concurrency and pre-filled with that many clients (the capacity tokens).
A fetcher task acquires a token with `client := <-p.queue` and the
deferred `p.queue <- client`, installed before any branching, returns it on
every exit path of `fetch` — transport error, bad status, missing length,
unparsable length, or success.  The channel-and-defer discipline is
embedded as a transition system: `free` counts tokens in the channel,
`holding` counts tasks that acquired and have not yet released, `pending`
and `done` count tasks not yet started and finished. -/

/-- A snapshot of the token pool and the fetcher tasks. -/
structure PoolState where
  free : Nat
  holding : Nat
  pending : Nat
  done : Nat
deriving DecidableEq

/-- The five exit paths of `resultProcessor.fetch`, one per early return of
src/main.go lines 207-262. -/
inductive ExitPath where
  | transportError
  | invalidStatus
  | noContentLength
  | atoiFailure
  | success
deriving DecidableEq

/-- One scheduler step: a pending task acquiring a token (possible only
when the channel is non-empty — receiving blocks otherwise), or a holding
task terminating along any exit path, its deferred send returning the
token. -/
inductive PoolStep : PoolState → PoolState → Prop where
  | acquire (f h p d : Nat) :
      PoolStep ⟨f + 1, h, p + 1, d⟩ ⟨f, h + 1, p, d⟩
  | finish (path : ExitPath) (f h p d : Nat) :
      PoolStep ⟨f, h + 1, p, d⟩ ⟨f + 1, h, p, d + 1⟩

/-- The start of a run: the pool holds all N tokens, no task has started. -/
def initPool (n tasks : Nat) : PoolState :=
  ⟨n, 0, tasks, 0⟩

/-- The states a run with concurrency `n` and `tasks` dispatched fetchers
can reach. -/
def PoolReachable (n tasks : Nat) (s : PoolState) : Prop :=
  Relation.ReflTransGen PoolStep (initPool n tasks) s

lemma poolStep_tokens {s s' : PoolState} (h : PoolStep s s') :
    s'.free + s'.holding = s.free + s.holding := by
  cases h <;> simp <;> omega

/-- Claim C8: in every reachable state of a run the number of capacity
tokens held by fetcher tasks is at most the configured concurrency `n`
(indeed tokens in the channel plus tokens held is invariantly `n`), and
from any state with a holding task, every one of the five exit paths has a
step that releases the token — the deferred send is unconditional. -/
theorem c8_tokens_bounded_and_released (n tasks : Nat) (s : PoolState)
    (hr : PoolReachable n tasks s) :
    s.holding ≤ n ∧ s.free + s.holding = n ∧
      (∀ (path : ExitPath) (f h p d : Nat),
        PoolStep ⟨f, h + 1, p, d⟩ ⟨f + 1, h, p, d + 1⟩) := by
  have hinv : s.free + s.holding = n := by
    induction hr with
    | refl => rfl
    | tail _ hstep ih => rw [poolStep_tokens hstep]; exact ih
  exact ⟨by omega, hinv, fun path f h p d => PoolStep.finish path f h p d⟩

/-- Witness for C8: with concurrency 1 and 2 tasks, the state after one
acquisition is reachable and holds exactly one token, within the bound. -/
theorem c8_tokens_bounded_and_released_witness :
    PoolReachable 1 2 ⟨0, 1, 1, 0⟩ ∧ (PoolState.mk 0 1 1 0).holding ≤ 1 :=
  ⟨Relation.ReflTransGen.single (PoolStep.acquire 0 0 1 0),
   (c8_tokens_bounded_and_released 1 2 ⟨0, 1, 1, 0⟩
     (Relation.ReflTransGen.single (PoolStep.acquire 0 0 1 0))).1⟩

end Raven
